import Mathlib

/-!
Verification of the chunked transcript-summarization engine of the
`chronicle` repository (`backend/services/summarizer.py`), shallowly
embedded in Lean 4.

Embedding conventions:
* Machine integers are `Nat`; fractional seconds and token estimates are `ℚ`.
* The text-generation provider is abstracted as an oracle
  `Nat → GenOutcome` indexed by the global provider-call count; error
  classification is kept faithful (substring matching on error strings,
  as the Python code does), while the `retry in (\d+\.?\d*)s` regex
  extraction of a retry-after hint is abstracted as an `Option ℚ`
  attached to the failure outcome.
* Database records become plain structures; the SQLAlchemy query
  ordered by chunk number becomes a list argument assumed sorted.
* Wall-clock sleeping is not performed; the delays the code would pass
  to `time.sleep` in the per-chunk retry loop are collected in a list.
-/

namespace Chronicle

/-- A persisted `SessionSummaryChunk` row (fields relevant to the core):
`{chunk_number (1-based), chunk_start_line, chunk_end_line, chunk_summary,
cumulative_summary}` for a fixed session. -/
structure ChunkRecord where
  chunkNumber : Nat
  startLine : Nat
  endLine : Nat
  chunkSummary : String
  cumulativeSummary : String
  deriving Repr, DecidableEq

/-! ## Chunk planner
`summarize_session_chunked`, lines 569-586 and 622-624: the effective
chunk size is derived from the total line count, the number of chunks is
the ceiling division, and chunk `i` (0-based) covers lines
`[i*size, min (i*size + size) total)`. -/

/-- Lines 569-582: `total_lines > 50000 → 10000`, `total_lines > 10000 → 5000`,
otherwise the provided `chunk_size_lines` default. -/
def effectiveChunkSize (totalLines hint : Nat) : Nat :=
  if totalLines > 50000 then 10000
  else if totalLines > 10000 then 5000
  else hint

/-- Line 569-580: the complexity string passed to model selection. -/
def complexityOf (totalLines : Nat) : String :=
  if totalLines > 50000 then "large"
  else if totalLines > 10000 then "medium"
  else "small"

/-- Line 585: `num_chunks = (total_lines + chunk_size_lines - 1) // chunk_size_lines`. -/
def numChunksOf (totalLines chunkSize : Nat) : Nat :=
  (totalLines + chunkSize - 1) / chunkSize

/-- Line 623: `start_line = chunk_num * chunk_size_lines`. -/
def chunkStart (chunkSize i : Nat) : Nat := i * chunkSize

/-- Line 624: `end_line = min(start_line + chunk_size_lines, total_lines)`. -/
def chunkEnd (totalLines chunkSize i : Nat) : Nat :=
  min (i * chunkSize + chunkSize) totalLines

/-! Arithmetic helper lemmas about the plan. -/

lemma numChunksOf_mul_ge (t s : Nat) (hs : 0 < s) : t ≤ numChunksOf t s * s := by
  unfold numChunksOf
  have hdm := Nat.div_add_mod (t + s - 1) s
  have hlt : (t + s - 1) % s < s := Nat.mod_lt _ hs
  rw [Nat.mul_comm]
  omega

lemma numChunksOf_mul_lt (t s : Nat) (ht : 0 < t) (hs : 0 < s) :
    numChunksOf t s * s < t + s := by
  unfold numChunksOf
  have hdm := Nat.div_add_mod (t + s - 1) s
  rw [Nat.mul_comm]
  omega

lemma numChunksOf_pos (t s : Nat) (ht : 0 < t) (hs : 0 < s) :
    0 < numChunksOf t s := by
  by_contra h
  have h0 : numChunksOf t s = 0 := by omega
  have := numChunksOf_mul_ge t s hs
  rw [h0] at this
  omega

end Chronicle

namespace Chronicle

/-- C6: For every `total_line_count > 0` and fixed positive chunk size, the
chunk plan is a pure function of the pair: `num_chunks` is the ceiling of
`total / size` (characterized by `total ≤ n*size < total + size`), the first
range starts at 0, the last range ends at `total`, consecutive ranges are
contiguous, every range is non-empty, and every line index `x < total` lies
in exactly one range, namely range `x / size`. -/
theorem chunk_plan_correct (total size : Nat) (htotal : 0 < total) (hsize : 0 < size) :
    (total ≤ numChunksOf total size * size ∧ numChunksOf total size * size < total + size) ∧
    chunkStart size 0 = 0 ∧
    chunkEnd total size (numChunksOf total size - 1) = total ∧
    (∀ i, i + 1 < numChunksOf total size →
      chunkEnd total size i = chunkStart size (i + 1)) ∧
    (∀ i, i < numChunksOf total size →
      chunkStart size i < chunkEnd total size i) ∧
    (∀ x, x < total →
      x / size < numChunksOf total size ∧
      chunkStart size (x / size) ≤ x ∧ x < chunkEnd total size (x / size) ∧
      (∀ j, chunkStart size j ≤ x → x < chunkEnd total size j → j = x / size)) := by
  have hge := numChunksOf_mul_ge total size hsize
  have hlt := numChunksOf_mul_lt total size htotal hsize
  have hpos := numChunksOf_pos total size htotal hsize
  set n := numChunksOf total size with hn
  have hn1 : n - 1 + 1 = n := Nat.succ_pred_eq_of_pos hpos
  have h1 : (n - 1) * size + size = n * size := by
    conv_rhs => rw [← hn1]
    exact (Nat.succ_mul (n - 1) size).symm
  refine ⟨⟨hge, hlt⟩, ?_, ?_, ?_, ?_, ?_⟩
  · simp [chunkStart]
  · unfold chunkEnd
    omega
  · intro i hi
    unfold chunkEnd chunkStart
    have hsucc : (i + 1) * size = i * size + size := Nat.succ_mul i size
    have hmono : (i + 1) * size ≤ (n - 1) * size :=
      Nat.mul_le_mul_right size (by omega)
    omega
  · intro i hi
    unfold chunkEnd chunkStart
    have hmono : i * size ≤ (n - 1) * size :=
      Nat.mul_le_mul_right size (by omega)
    omega
  · intro x hx
    have hdm := Nat.div_add_mod x size
    have hmlt : x % size < size := Nat.mod_lt _ hsize
    have hcomm : x / size * size = size * (x / size) := Nat.mul_comm _ _
    have hstart : chunkStart size (x / size) ≤ x := by
      unfold chunkStart
      omega
    have hend : x < chunkEnd total size (x / size) := by
      unfold chunkEnd
      omega
    have hidx : x / size < n := by
      have hxn : x < size * n := by
        rw [Nat.mul_comm]
        exact lt_of_lt_of_le hx hge
      exact Nat.div_lt_of_lt_mul hxn
    refine ⟨hidx, hstart, hend, ?_⟩
    intro j hj1 hj2
    unfold chunkStart at hj1
    unfold chunkEnd at hj2
    have hsucc : (j + 1) * size = j * size + size := Nat.succ_mul j size
    have hdiv := Nat.div_eq_of_lt_le hj1 (by omega : x < (j + 1) * size)
    omega

/-- Witness for `chunk_plan_correct` at `total = 12000`, `size = 5000`
(the plan the code actually uses for a 12,000-line transcript). -/
theorem chunk_plan_correct_witness :
    (12000 ≤ numChunksOf 12000 5000 * 5000 ∧ numChunksOf 12000 5000 * 5000 < 12000 + 5000) ∧
    chunkStart 5000 0 = 0 ∧
    chunkEnd 12000 5000 (numChunksOf 12000 5000 - 1) = 12000 ∧
    (∀ i, i + 1 < numChunksOf 12000 5000 →
      chunkEnd 12000 5000 i = chunkStart 5000 (i + 1)) ∧
    (∀ i, i < numChunksOf 12000 5000 →
      chunkStart 5000 i < chunkEnd 12000 5000 i) ∧
    (∀ x, x < 12000 →
      x / 5000 < numChunksOf 12000 5000 ∧
      chunkStart 5000 (x / 5000) ≤ x ∧ x < chunkEnd 12000 5000 (x / 5000) ∧
      (∀ j, chunkStart 5000 j ≤ x → x < chunkEnd 12000 5000 j → j = x / 5000)) :=
  chunk_plan_correct 12000 5000 (by norm_num) (by norm_num)

end Chronicle

namespace Chronicle

/-! ## Error classification
Lines 734-736: the retry handler classifies an exception by substring
matching on its message: `"429" in error_str or "quota" in
error_str.lower() or "Resource has been exhausted" in error_str`. -/

/-- Test whether `pat` occurs at the start of `s` (character lists). -/
def charsLeadWith (pat s : List Char) : Bool :=
  match pat, s with
  | [], _ => true
  | _ :: _, [] => false
  | p :: ps, c :: cs => p == c && charsLeadWith ps cs

/-- Test whether `pat` occurs somewhere inside `s` (character lists): Python's `in`. -/
def charsContain (s pat : List Char) : Bool :=
  match s with
  | [] => pat.isEmpty
  | _ :: cs => charsLeadWith pat s || charsContain cs pat

/-- Python's `str.lower()`: `String.toLower` restated structurally over the character
list (the library version recurses on byte positions, which the kernel
cannot evaluate). -/
def strLower (s : String) : String :=
  ⟨s.data.map Char.toLower⟩

/-- Python's `pat in s` on strings. -/
def strContainsSub (s pat : String) : Bool :=
  charsContain s.data pat.data

/-- Line 736: `is_rate_limit` — the provider is Gemini and the message
matches one of the three rate-limit markers. -/
def isRateLimitError (s : String) : Bool :=
  strContainsSub s "429" || strContainsSub (strLower s) "quota" ||
    strContainsSub s "Resource has been exhausted"

/-- Line 704: message of the `ValueError` raised when model selection finds
every model at its daily limit. -/
def quotaExhaustedMsg : String :=
  "All Gemini models have reached their daily limits. Try again tomorrow or use --use-cli option."

/-! ## Retry/backoff controller
Lines 738-753: with retries remaining, a rate-limit error with an extracted
`retry in Ns` hint waits `N + 2`; a rate-limit error without a hint waits
`15 * (attempt + 1)`; any other error waits `5 * 2 ** attempt`. -/

/-- The sleep the handler computes for attempt number `attempt` (0-based). -/
def retryDelay (isRateLimit : Bool) (retryAfterHint : Option ℚ) (attempt : Nat) : ℚ :=
  if isRateLimit then
    match retryAfterHint with
    | some d => d + 2
    | none => 15 * ((attempt : ℚ) + 1)
  else 5 * 2 ^ attempt

/-! ## Adaptive rate governor
`calculate_adaptive_delay`, lines 439-476 (Gemini path): prune the request
window to the last 60 seconds, and if the windowed token sum plus the new
estimate exceeds 900,000 (90% of the 1M/min cap), wait until the oldest
windowed request leaves the window, plus a 2 s buffer, clamped at 0;
otherwise return the 8 s floor delay. -/

/-- Line 453: `estimated_tokens = (len(chunk_text) + len(cumulative_summary)) / 4`. -/
def tokenEstimate (chunkLen cumLen : Nat) : ℚ :=
  ((chunkLen : ℚ) + (cumLen : ℚ)) / 4

/-- Lines 456-460: the pruned rolling window
`[(ts, tokens) for ts, tokens in recent_requests if ts > cutoff]`. -/
def recentWindow (reqs : List (ℚ × ℚ)) (now : ℚ) : List (ℚ × ℚ) :=
  reqs.filter (fun p => decide (now - 60 < p.1))

/-- Lines 463-476: the returned delay. -/
def calculateAdaptiveDelay (reqs : List (ℚ × ℚ)) (now : ℚ)
    (chunkLen cumLen : Nat) : ℚ :=
  if 900000 < ((recentWindow reqs now).map Prod.snd).sum + tokenEstimate chunkLen cumLen then
    match recentWindow reqs now with
    | [] => 8
    | (ts, _) :: _ => max ((ts + 60) - now + 2) 0
  else 8

end Chronicle

namespace Chronicle

/-- C9: `calculate_adaptive_delay` never returns a negative delay, and when
the rolling 60-second token sum plus the new request's estimate exceeds
90% of the per-minute cap (900,000 tokens) while the pruned window is
non-empty, the returned delay is at least the time remaining until the
oldest in-window request (the window head; the minimum timestamp, as the
window is recorded in chronological order) exits the 60-second window. -/
theorem adaptive_delay_correct (reqs : List (ℚ × ℚ)) (now : ℚ) (chunkLen cumLen : Nat)
    (hsorted : reqs.Pairwise (fun a b => a.1 ≤ b.1)) :
    0 ≤ calculateAdaptiveDelay reqs now chunkLen cumLen ∧
    ∀ ts tok rest, recentWindow reqs now = (ts, tok) :: rest →
      900000 < ((recentWindow reqs now).map Prod.snd).sum + tokenEstimate chunkLen cumLen →
      (ts + 60) - now ≤ calculateAdaptiveDelay reqs now chunkLen cumLen ∧
      ∀ q ∈ recentWindow reqs now, ts ≤ q.1 := by
  constructor
  · unfold calculateAdaptiveDelay
    rcases hw : recentWindow reqs now with _ | ⟨⟨ts, tok⟩, rest⟩ <;> split
    · show (0 : ℚ) ≤ 8
      norm_num
    · show (0 : ℚ) ≤ 8
      norm_num
    · show (0 : ℚ) ≤ max ((ts + 60) - now + 2) 0
      exact le_max_right _ _
    · show (0 : ℚ) ≤ 8
      norm_num
  · intro ts tok rest hw hover
    have hdelay : calculateAdaptiveDelay reqs now chunkLen cumLen =
        max ((ts + 60) - now + 2) 0 := by
      unfold calculateAdaptiveDelay
      rw [hw] at hover ⊢
      rw [if_pos hover]
    constructor
    · rw [hdelay]
      have hmax := le_max_left ((ts + 60) - now + 2) (0 : ℚ)
      linarith
    · have hp : (recentWindow reqs now).Pairwise (fun a b => a.1 ≤ b.1) :=
        List.Pairwise.filter _ hsorted
      rw [hw] at hp
      have hhead := (List.pairwise_cons.mp hp).1
      intro q hq
      rw [hw] at hq
      rcases List.mem_cons.mp hq with h | h
      · rw [h]
      · exact hhead q h

/-- Witness for `adaptive_delay_correct`: one 500,000-token request at t=0,
now t=30, next request estimated at 425,000 tokens (1,700,000 prompt chars):
the sum 925,000 exceeds 900,000, the window head is the request at t=0, and
the returned delay (32 s) is at least the 30 s left until it ages out. -/
theorem adaptive_delay_correct_witness :
    (0 ≤ calculateAdaptiveDelay [((0 : ℚ), (500000 : ℚ))] 30 1700000 0 ∧
      ((0 : ℚ) + 60) - 30 ≤ calculateAdaptiveDelay [((0 : ℚ), (500000 : ℚ))] 30 1700000 0 ∧
      ∀ q ∈ recentWindow [((0 : ℚ), (500000 : ℚ))] 30, (0 : ℚ) ≤ q.1) := by
  have h := adaptive_delay_correct [((0 : ℚ), (500000 : ℚ))] 30 1700000 0
    (List.pairwise_singleton _ _)
  have hwin : recentWindow [((0 : ℚ), (500000 : ℚ))] 30 = [((0 : ℚ), (500000 : ℚ))] := by
    norm_num [recentWindow, List.filter]
  have hover : (900000 : ℚ) <
      ((recentWindow [((0 : ℚ), (500000 : ℚ))] 30).map Prod.snd).sum + tokenEstimate 1700000 0 := by
    rw [hwin]
    norm_num [tokenEstimate]
  have h2 := h.2 0 500000 [] hwin hover
  exact ⟨h.1, h2.1, h2.2⟩

/-- C7 counterexample: the backoff for a confirmed rate-limit error without
a retry-after hint is 15, 30, 45, ... — an arithmetic, not geometric,
progression, so it does not follow exponential backoff (no base/ratio with
ratio > 1 reproduces it over the attempts that can sleep). -/
theorem rate_limit_backoff_not_exponential :
    retryDelay true none 0 = 15 ∧ retryDelay true none 1 = 30 ∧ retryDelay true none 2 = 45 ∧
    ¬ ∃ base ratio : ℚ, 1 < ratio ∧
        ∀ attempt, attempt < 4 → retryDelay true none attempt = base * ratio ^ attempt := by
  refine ⟨by norm_num [retryDelay], by norm_num [retryDelay], by norm_num [retryDelay], ?_⟩
  rintro ⟨b, r, hr, h⟩
  have h0 := h 0 (by norm_num)
  have h1 := h 1 (by norm_num)
  have h2 := h 2 (by norm_num)
  simp only [retryDelay, if_true] at h0 h1 h2
  norm_num at h0 h1 h2
  subst h0
  have hr2 : r = 2 := by linarith
  rw [hr2] at h2
  norm_num at h2

/-- C4/C7 amended delay schedule (lines 738-753): a rate-limit error with a
retry-after hint waits the hint plus a fixed 2 s buffer; a rate-limit error
without a hint waits linearly, `15 * (attempt + 1)`; any other retryable
error backs off exponentially, `5 * 2 ^ attempt`; within the 5-attempt cap
(attempts 0..3 can sleep) the rate-limit delay is always strictly larger
than the generic delay. -/
theorem retry_delay_amended (attempt : Nat) (hint : ℚ) :
    retryDelay true (some hint) attempt = hint + 2 ∧
    retryDelay true none attempt = 15 * ((attempt : ℚ) + 1) ∧
    retryDelay false (some hint) attempt = 5 * 2 ^ attempt ∧
    retryDelay false none attempt = 5 * 2 ^ attempt ∧
    (attempt < 4 → retryDelay false none attempt < retryDelay true none attempt) := by
  refine ⟨rfl, rfl, rfl, rfl, ?_⟩
  intro h
  simp only [retryDelay, if_true]
  interval_cases attempt <;> norm_num

/-- Witness for `retry_delay_amended` at attempt 1 with hint 7. -/
theorem retry_delay_amended_witness :
    retryDelay true (some 7) 1 = 7 + 2 ∧
    retryDelay false none 1 < retryDelay true none 1 :=
  ⟨(retry_delay_amended 1 7).1, (retry_delay_amended 1 7).2.2.2.2 (by norm_num)⟩

end Chronicle

namespace Chronicle

/-! ## Model catalog and selection
`GeminiModel` (lines 11-43) and `_select_best_available_model`
(lines 195-237). -/

/-- One entry of the static `GeminiModel` catalog. -/
structure ModelDescriptor where
  name : String
  dailyLimit : Nat
  priority : Nat
  useCase : String
  deriving Repr, DecidableEq

def FLASH_PREVIEW : ModelDescriptor :=
  ⟨"gemini-2.5-flash-preview-09-2025", 250, 1, "default"⟩

def FLASH_2_5 : ModelDescriptor :=
  ⟨"gemini-2.5-flash", 250, 2, "fallback_2_5"⟩

def FLASH_2_0 : ModelDescriptor :=
  ⟨"gemini-2.0-flash-exp", 200, 3, "high_tpm"⟩

def FLASH_LITE : ModelDescriptor :=
  ⟨"gemini-2.5-flash-lite", 1000, 4, "high_volume"⟩

/-- The catalog, in declaration order of the `GeminiModel` enum. -/
def geminiCatalog : List ModelDescriptor :=
  [FLASH_PREVIEW, FLASH_2_5, FLASH_2_0, FLASH_LITE]

/-- Lines 207-225: the preference order scanned for the given complexity. -/
def preferredOrder (complexity : String) : List ModelDescriptor :=
  if complexity = "large" then [FLASH_2_0, FLASH_LITE, FLASH_PREVIEW, FLASH_2_5]
  else [FLASH_PREVIEW, FLASH_2_5, FLASH_2_0, FLASH_LITE]

/-- Lines 229-231: `remaining = daily_limit - current_usage; remaining > 0`
(`usage` maps a model name to today's `request_count`; truncated `Nat`
subtraction agrees with the Python `int` test `remaining > 0`). -/
def modelAvailable (usage : String → Nat) (m : ModelDescriptor) : Bool :=
  decide (0 < m.dailyLimit - usage m.name)

/-- Lines 228-237: return the first model of the active order with quota
remaining, `none` when every model is at its daily limit. -/
def selectBestAvailableModel (usage : String → Nat) (complexity : String) :
    Option ModelDescriptor :=
  (preferredOrder complexity).find? (modelAvailable usage)

/-! ## Per-chunk retry loop
Lines 662-768 of `summarize_session_chunked` (Gemini provider,
`use_cli = False`): up to `max_retries = 5` attempts; each attempt first
selects a model (raising the quota-exhausted `ValueError` when none is
available — an exception the surrounding `except Exception` then catches
and classifies like any other error) and otherwise issues one provider
call. With retries remaining the handler sleeps `retryDelay` and retries;
on the final attempt it returns the truncation-annotated cumulative
summary when one exists and otherwise re-raises. -/

/-- Result of one provider generation call. -/
inductive GenOutcome where
  | success (text : String)
  | failure (errorStr : String) (retryAfterHint : Option ℚ)

def maxRetries : Nat := 5

/-- The `_increment_usage` update restricted to the `request_count` column. -/
def bumpUsage (usage : String → Nat) (name : String) : String → Nat :=
  fun n => if n = name then usage n + 1 else usage n

/-- Line 762: the truncation annotation appended to the last cumulative
summary when a chunk exhausts its retries. -/
def truncMarker (chunkNum : Nat) : String :=
  "\n\n[Error: Could not complete summarization at chunk " ++ toString (chunkNum + 1) ++
    " after " ++ toString maxRetries ++ " retries]"

/-- Line 758: the `ValueError` message raised when retries are exhausted
with no cumulative summary to return. -/
def chunkFailMsg (chunkNum : Nat) (errorStr : String) : String :=
  "Error summarizing chunk " ++ toString (chunkNum + 1) ++ " after " ++
    toString maxRetries ++ " attempts: " ++ errorStr

/-- Outcome of the retry loop for one chunk. `success` carries the new
chunk summary, the updated usage counters, the provider-call count and the
accumulated sleeps; `truncated` is the early `return` of the annotated
partial summary; `fatal` is the re-raised error. -/
inductive ChunkOutcome where
  | success (chunkSummary : String) (usage : String → Nat) (callIdx : Nat) (sleeps : List ℚ)
  | truncated (finalText : String) (callIdx : Nat) (sleeps : List ℚ)
  | fatal (errMsg : String) (callIdx : Nat) (sleeps : List ℚ)

/-- The retry loop, structurally recursive on the remaining attempts
(`fuel`; the loop enters with `fuel = maxRetries`, `attempt = 0`, and
`attempt < max_retries - 1` in the code corresponds to `0 < fuel` here).
`oracle` gives the outcome of each provider call by global call index. -/
def chunkLoop (oracle : Nat → GenOutcome) (complexity : String) (cumulative : String)
    (chunkNum : Nat) : Nat → Nat → (String → Nat) → Nat → List ℚ → ChunkOutcome
  | 0, _, _, callIdx, sleeps => .fatal "" callIdx sleeps
  | fuel + 1, attempt, usage, callIdx, sleeps =>
    match selectBestAvailableModel usage complexity with
    | none =>
      if 0 < fuel then
        chunkLoop oracle complexity cumulative chunkNum fuel (attempt + 1) usage callIdx
          (sleeps ++ [retryDelay (isRateLimitError quotaExhaustedMsg) none attempt])
      else if cumulative ≠ "" then
        .truncated (cumulative ++ truncMarker chunkNum) callIdx sleeps
      else
        .fatal (chunkFailMsg chunkNum quotaExhaustedMsg) callIdx sleeps
    | some m =>
      match oracle callIdx with
      | .success text => .success text (bumpUsage usage m.name) (callIdx + 1) sleeps
      | .failure errStr hint =>
        if 0 < fuel then
          chunkLoop oracle complexity cumulative chunkNum fuel (attempt + 1) usage (callIdx + 1)
            (sleeps ++ [retryDelay (isRateLimitError errStr) hint attempt])
        else if cumulative ≠ "" then
          .truncated (cumulative ++ truncMarker chunkNum) (callIdx + 1) sleeps
        else
          .fatal (chunkFailMsg chunkNum errStr) (callIdx + 1) sleeps

/-! ## Orchestrator
`summarize_session_chunked`, lines 556-820, for the Gemini provider with
`use_cli = False`. The transcript is abstracted to its line count (chunk
text only feeds the prompt and token estimates); the inter-chunk adaptive
sleep (lines 799-809) consults the wall clock and is modelled separately
by `calculateAdaptiveDelay`; the sleeps recorded in `RunOk.sleeps` are
the retry-backoff sleeps of the per-chunk loops. -/

/-- The value of a completed (or truncation-terminated) run: the returned
summary, the chunk records committed during this run in commit order, the
number of provider calls made, the retry sleeps, and whether the final
summary was written back to the session (lines 811-814, skipped by both
early returns). -/
structure RunOk where
  summary : String
  records : List ChunkRecord
  calls : Nat
  sleeps : List ℚ
  wroteFinal : Bool
  deriving Repr, DecidableEq

/-- Lines 588-615: resume planning. `inl s` is the idempotent
short-circuit returning the stored final summary `s`; `inr (start, seed)`
resumes the 0-based chunk loop at `start` with cumulative-summary seed
`seed`. -/
def resumePlan (existing : List ChunkRecord) (numChunks : Nat) : Sum String (Nat × String) :=
  if existing.isEmpty then .inr (0, "")
  else
    match (List.range' 1 numChunks).filter
        (fun n => !(existing.map (fun c => c.chunkNumber)).contains n) with
    | [] =>
      match existing.getLast? with
      | some c => .inl c.cumulativeSummary
      | none => .inr (0, "")
    | firstMissing :: _ =>
      let seed :=
        if 1 < firstMissing then
          match existing.filter (fun c => c.chunkNumber == firstMissing - 1) with
          | c :: _ => c.cumulativeSummary
          | [] => ""
        else ""
      .inr (firstMissing - 1, seed)

/-- Lines 622-818: the chunk-processing loop, structurally recursive on the
number of chunks left. On chunk success the checkpoint upsert stores the
record (`cumulative_summary = chunk_summary`, lines 771-793) and the loop
advances; `truncated` returns the annotated partial summary with the
records committed so far; `fatal` propagates the error. `remaining = 0`
is loop exit: the final summary is written back (lines 811-814). -/
def processChunks (oracle : Nat → GenOutcome) (complexity : String)
    (totalLines chunkSize : Nat) :
    Nat → Nat → String → (String → Nat) → Nat → List ChunkRecord → List ℚ →
    Except String RunOk
  | 0, _, cumulative, _, callIdx, recs, sleeps =>
    .ok ⟨cumulative, recs, callIdx, sleeps, true⟩
  | remaining + 1, chunkNum, cumulative, usage, callIdx, recs, sleeps =>
    match chunkLoop oracle complexity cumulative chunkNum maxRetries 0 usage callIdx sleeps with
    | .success chunkSummary usage' callIdx' sleeps' =>
      processChunks oracle complexity totalLines chunkSize remaining
        (chunkNum + 1) chunkSummary usage' callIdx'
        (recs ++ [⟨chunkNum + 1, chunkNum * chunkSize,
          min (chunkNum * chunkSize + chunkSize) totalLines, chunkSummary, chunkSummary⟩])
        sleeps'
    | .truncated text callIdx' sleeps' => .ok ⟨text, recs, callIdx', sleeps', false⟩
    | .fatal msg _ _ => .error msg

/-- The entry point `summarize_session_chunked(session_id, chunk_size_lines)`
for a session whose transcript has `totalLines` lines and whose stored
chunk records are `existing` (ordered by chunk number, as the query
returns them), with today's usage counters `usage`. -/
def summarizeSessionChunked (oracle : Nat → GenOutcome) (usage : String → Nat)
    (existing : List ChunkRecord) (totalLines : Nat) (chunkSizeHint : Nat) :
    Except String RunOk :=
  match resumePlan existing
      (numChunksOf totalLines (effectiveChunkSize totalLines chunkSizeHint)) with
  | .inl finalSummary => .ok ⟨finalSummary, [], 0, [], false⟩
  | .inr (startChunk, seed) =>
    processChunks oracle (complexityOf totalLines) totalLines
      (effectiveChunkSize totalLines chunkSizeHint)
      (numChunksOf totalLines (effectiveChunkSize totalLines chunkSizeHint) - startChunk)
      startChunk seed usage 0 [] []

end Chronicle

namespace Chronicle

/-! Concrete instantiations and projection helpers used by the concrete
theorems below. -/

/-- Projection of a run result onto its success value. -/
def runOkOf : Except String RunOk → Option RunOk
  | .ok r => some r
  | .error _ => none

/-- Projection of a run result onto its raised error. -/
def runErrOf : Except String RunOk → Option String
  | .ok _ => none
  | .error e => some e

/-- A provider that always succeeds, answering call `i` with `"S" ++ i`. -/
def oracleA : Nat → GenOutcome := fun i => .success ("S" ++ toString i)

/-- A provider whose first call succeeds with `"A"` and whose later calls
all fail with a bare `429` rate-limit error carrying no retry-after hint. -/
def oracleB : Nat → GenOutcome := fun i =>
  if i = 0 then .success "A" else .failure "429" none

/-- A provider that is never reached. -/
def anyOracle : Nat → GenOutcome := fun _ => .success ""

/-- Fresh usage counters: no requests recorded today. -/
def usage0 : String → Nat := fun _ => 0

/-- Usage counters with every catalog model at (or beyond) its daily limit. -/
def usageAtLimit : String → Nat := fun _ => 1000

end Chronicle

namespace Chronicle

/-! Helper lemmas about selection and the retry loop. -/

lemma find?_first {α : Type} (p : α → Bool) :
    ∀ (l : List α) (a : α), l.find? p = some a →
      ∃ pre post, l = pre ++ a :: post ∧ (∀ b ∈ pre, p b = false) ∧ p a = true := by
  intro l
  induction l with
  | nil => intro a h; simp [List.find?] at h
  | cons x xs ih =>
    intro a h
    by_cases hx : p x = true
    · rw [List.find?_cons_of_pos _ hx] at h
      obtain rfl : x = a := Option.some.inj h
      exact ⟨[], xs, rfl, by simp, hx⟩
    · rw [List.find?_cons_of_neg _ hx] at h
      obtain ⟨pre, post, heq, hpre, hpa⟩ := ih a h
      refine ⟨x :: pre, post, by rw [heq]; rfl, ?_, hpa⟩
      intro b hb
      rcases List.mem_cons.mp hb with rfl | hb
      · simpa using hx
      · exact hpre b hb

lemma mem_preferredOrder {c : String} {m : ModelDescriptor}
    (h : m ∈ preferredOrder c) : m ∈ geminiCatalog := by
  unfold preferredOrder at h
  unfold geminiCatalog
  split at h <;> simp_all <;> tauto

/-- With every catalog model at its limit, the quota-exhausted `ValueError`
is caught by the generic handler each attempt, so the loop (entered with
`fuel + 1` attempts left and empty cumulative summary) burns all attempts,
sleeping the generic backoff between them, and ends fatally. -/
lemma chunkLoop_quota_fatal (oracle : Nat → GenOutcome) (c : String) (chunkNum : Nat)
    (usage : String → Nat) (hsel : selectBestAvailableModel usage c = none) :
    ∀ fuel attempt callIdx sleeps,
      chunkLoop oracle c "" chunkNum (fuel + 1) attempt usage callIdx sleeps =
        .fatal (chunkFailMsg chunkNum quotaExhaustedMsg) callIdx
          (sleeps ++ (List.range fuel).map
            (fun k => retryDelay (isRateLimitError quotaExhaustedMsg) none (attempt + k))) := by
  intro fuel
  induction fuel with
  | zero =>
    intro attempt callIdx sleeps
    simp [chunkLoop, hsel]
  | succ f ih =>
    intro attempt callIdx sleeps
    have hstep : chunkLoop oracle c "" chunkNum (f + 1 + 1) attempt usage callIdx sleeps =
        chunkLoop oracle c "" chunkNum (f + 1) (attempt + 1) usage callIdx
          (sleeps ++ [retryDelay (isRateLimitError quotaExhaustedMsg) none attempt]) := by
      simp [chunkLoop, hsel]
    rw [hstep, ih]
    congr 1
    rw [List.range_succ_eq_map]
    simp only [List.map_cons, List.map_map, List.append_assoc, List.singleton_append,
      Nat.add_zero]
    congr 1
    congr 1
    apply List.map_congr_left
    intro k _
    simp only [Function.comp]
    congr 1
    omega

end Chronicle

namespace Chronicle

/-- C8 (claim refuted by the code): when every catalog model is at its
daily cap, the quota-exhaustion `ValueError` raised after model selection
(line 704) is raised inside the `try`, so the surrounding
`except Exception` (line 734) catches it; its message matches none of the
rate-limit markers, so it is classified as a generic transient error and
retried. Starting a chunk with no cumulative summary and all models at
limit therefore performs all 5 attempts with backoff sleeps of 5, 10, 20
and 40 seconds (and zero provider calls) before the error propagates —
it is not surfaced immediately, contradicting the claim. -/
theorem quota_exhausted_is_retried :
    selectBestAvailableModel usageAtLimit "small" = none ∧
    isRateLimitError quotaExhaustedMsg = false ∧
    chunkLoop anyOracle "small" "" 0 maxRetries 0 usageAtLimit 0 [] =
      .fatal (chunkFailMsg 0 quotaExhaustedMsg) 0 [5, 10, 20, 40] ∧
    runErrOf (summarizeSessionChunked anyOracle usageAtLimit [] 100 3000) =
      some (chunkFailMsg 0 quotaExhaustedMsg) := by
  have hsel : selectBestAvailableModel usageAtLimit "small" = none := by decide
  have hcls : isRateLimitError quotaExhaustedMsg = false := by decide
  refine ⟨hsel, hcls, ?_, by decide⟩
  have h := chunkLoop_quota_fatal anyOracle "small" 0 usageAtLimit hsel 4 0 0 []
  have hmax : maxRetries = 4 + 1 := rfl
  rw [hmax, h, hcls]
  congr 1
  have hrange : List.range 4 = [0, 1, 2, 3] := by decide
  rw [hrange]
  simp only [List.map_cons, List.map_nil, List.nil_append, retryDelay, if_neg Bool.false_ne_true]
  norm_num

end Chronicle

namespace Chronicle

/-- C5 counterexample: a 12,000-line transcript with a 3,000-line chunk
hint does not yield 4 chunks. Because 12,000 > 10,000 the medium-session
override (line 577) replaces the hint with 5,000-line chunks, so the plan
has 3 chunks, and a full run with an always-succeeding provider commits
exactly 3 chunk records, not 4. -/
theorem chunk_count_12000_counterexample :
    effectiveChunkSize 12000 3000 = 5000 ∧
    numChunksOf 12000 (effectiveChunkSize 12000 3000) = 3 ∧
    (runOkOf (summarizeSessionChunked oracleA usage0 [] 12000 3000)).map
      (fun r => r.records.length) = some 3 ∧
    ¬ (runOkOf (summarizeSessionChunked oracleA usage0 [] 12000 3000)).map
      (fun r => r.records.length) = some 4 :=
  ⟨by decide, by decide, by decide, by decide⟩

/-- C5 amended: a 12,000-line transcript with a 3,000-line chunk hint is
summarized in exactly 3 chunks of 5,000 lines (the medium-session override
applies), numbered 1..3 with ranges [0,5000), [5000,10000), [10000,12000),
and the session's final summary equals chunk 3's stored cumulative
summary. -/
theorem chunk_count_12000_amended :
    runOkOf (summarizeSessionChunked oracleA usage0 [] 12000 3000) =
      some ⟨"S2", [⟨1, 0, 5000, "S0", "S0"⟩, ⟨2, 5000, 10000, "S1", "S1"⟩,
        ⟨3, 10000, 12000, "S2", "S2"⟩], 3, [], true⟩ ∧
    (runOkOf (summarizeSessionChunked oracleA usage0 [] 12000 3000)).map
      (fun r => r.records.getLast?.map (fun cr => cr.cumulativeSummary) = some r.summary) =
      some True := by
  constructor
  · decide
  · simp only [show runOkOf (summarizeSessionChunked oracleA usage0 [] 12000 3000) =
      some ⟨"S2", [⟨1, 0, 5000, "S0", "S0"⟩, ⟨2, 5000, 10000, "S1", "S1"⟩,
        ⟨3, 10000, 12000, "S2", "S2"⟩], 3, [], true⟩ from by decide, Option.map_some]
    simp

/-- C4 counterexample: chunk 1 succeeds (cumulative summary "A"), then
chunk 2 fails every one of its 5 attempts with a retryable 429 error. The
run does not propagate an error to the caller: it returns normally with
the truncation-annotated partial summary (and chunk 1's checkpoint
intact) — `return cumulative_summary + "[Error: ...]"` at line 762, not a
raise — so the claim's "the error propagates to the caller" fails. -/
theorem retry_exhaustion_counterexample :
    (runOkOf (summarizeSessionChunked oracleB usage0 [] 4000 3000)).map
      (fun r => (r.summary, r.records, r.wroteFinal)) =
      some ("A" ++ truncMarker 1, [⟨1, 0, 3000, "A", "A"⟩], false) ∧
    runErrOf (summarizeSessionChunked oracleB usage0 [] 4000 3000) = none :=
  ⟨by decide, by decide⟩

end Chronicle

namespace Chronicle

lemma mem_le_getLast : ∀ (l : List ChunkRecord),
    l.Pairwise (fun a b => a.chunkNumber < b.chunkNumber) →
    ∀ last, l.getLast? = some last →
    ∀ c ∈ l, c.chunkNumber ≤ last.chunkNumber := by
  intro l
  induction l with
  | nil => intro _ last h; simp at h
  | cons x xs ih =>
    intro hp last hl c hc
    rcases List.pairwise_cons.mp hp with ⟨hx, hxs⟩
    rcases List.mem_cons.mp hc with rfl | hc
    · cases xs with
      | nil =>
        simp only [List.getLast?_singleton, Option.some.injEq] at hl
        rw [hl]
      | cons y ys =>
        have hl' : (y :: ys).getLast? = some last := hl
        have hmem : last ∈ y :: ys := List.mem_of_mem_getLast? hl'
        exact le_of_lt (hx last hmem)
    · cases xs with
      | nil => simp at hc
      | cons y ys =>
        exact ih hxs last hl c hc

lemma effectiveChunkSize_pos (totalLines hint : Nat) (hhint : 0 < hint) :
    0 < effectiveChunkSize totalLines hint := by
  unfold effectiveChunkSize
  split
  · norm_num
  · split
    · norm_num
    · exact hhint

end Chronicle

namespace Chronicle

/-- C1: for a session whose stored checkpoints already contain every chunk
number `1..num_chunks` of the recomputed plan, `summarize_session_chunked`
makes zero provider calls, commits nothing, and returns the stored final
summary — the cumulative summary of the last stored chunk (the maximal
chunk number, as the records are ordered by chunk number) — unchanged. -/
theorem idempotent_complete_run (oracle : Nat → GenOutcome) (usage : String → Nat)
    (existing : List ChunkRecord) (totalLines chunkSizeHint : Nat)
    (htotal : 0 < totalLines) (hhint : 0 < chunkSizeHint)
    (hsorted : existing.Pairwise (fun a b => a.chunkNumber < b.chunkNumber))
    (hcomplete : ∀ k, 1 ≤ k →
      k ≤ numChunksOf totalLines (effectiveChunkSize totalLines chunkSizeHint) →
      k ∈ existing.map (fun c => c.chunkNumber)) :
    ∃ last, existing.getLast? = some last ∧
      (∀ c ∈ existing, c.chunkNumber ≤ last.chunkNumber) ∧
      summarizeSessionChunked oracle usage existing totalLines chunkSizeHint =
        .ok ⟨last.cumulativeSummary, [], 0, [], false⟩ := by
  have hsize := effectiveChunkSize_pos totalLines chunkSizeHint hhint
  have hnum : 0 < numChunksOf totalLines (effectiveChunkSize totalLines chunkSizeHint) :=
    numChunksOf_pos _ _ htotal hsize
  have h1mem : (1 : Nat) ∈ existing.map (fun c => c.chunkNumber) :=
    hcomplete 1 (le_refl 1) hnum
  have hne : existing ≠ [] := by
    intro h
    rw [h] at h1mem
    simp at h1mem
  have hlast := List.getLast?_eq_getLast existing hne
  refine ⟨existing.getLast hne, hlast, mem_le_getLast existing hsorted _ hlast, ?_⟩
  have hfilter : (List.range' 1
      (numChunksOf totalLines (effectiveChunkSize totalLines chunkSizeHint))).filter
      (fun n => !(existing.map (fun c => c.chunkNumber)).contains n) = [] := by
    apply List.filter_eq_nil_iff.mpr
    intro n hn
    rcases List.mem_range'_1.mp hn with ⟨h1, h2⟩
    have hmem : n ∈ existing.map (fun c => c.chunkNumber) := hcomplete n h1 (by omega)
    have hc : (existing.map (fun c => c.chunkNumber)).contains n = true :=
      List.elem_iff.mpr hmem
    intro hcontra
    rw [hc] at hcontra
    simp at hcontra
  have hplan : resumePlan existing
      (numChunksOf totalLines (effectiveChunkSize totalLines chunkSizeHint)) =
      .inl (existing.getLast hne).cumulativeSummary := by
    unfold resumePlan
    rw [if_neg (by simp [List.isEmpty_iff, hne])]
    rw [hfilter, hlast]
  unfold summarizeSessionChunked
  rw [hplan]

/-- Witness for `idempotent_complete_run`: a 5-line transcript with a
3,000-line hint plans a single chunk, and the single stored chunk record
makes the session complete; the run returns its cumulative summary with
zero provider calls. -/
theorem idempotent_complete_run_witness :
    ∃ last, [(⟨1, 0, 5, "a", "FINAL"⟩ : ChunkRecord)].getLast? = some last ∧
      (∀ c ∈ [(⟨1, 0, 5, "a", "FINAL"⟩ : ChunkRecord)], c.chunkNumber ≤ last.chunkNumber) ∧
      summarizeSessionChunked anyOracle usage0 [⟨1, 0, 5, "a", "FINAL"⟩] 5 3000 =
        .ok ⟨last.cumulativeSummary, [], 0, [], false⟩ := by
  apply idempotent_complete_run anyOracle usage0 [⟨1, 0, 5, "a", "FINAL"⟩] 5 3000
    (by norm_num) (by norm_num) (List.pairwise_singleton _ _)
  intro k h1 h2
  have h3 : numChunksOf 5 (effectiveChunkSize 5 3000) = 1 := by decide
  rw [h3] at h2
  have : k = 1 := by omega
  subst this
  decide

end Chronicle

namespace Chronicle

/-- If the first missing chunk number `k` of the recomputed plan is
greater than 1, a stored record numbered `k - 1` exists, so the
`chunk_before_gap` filter (line 604) is non-empty. -/
lemma missing_head_pred_present (existing : List ChunkRecord) (numChunks k : Nat)
    (hk : ((List.range' 1 numChunks).filter
      (fun n => !(existing.map (fun c => c.chunkNumber)).contains n)).head? = some k)
    (hk1 : 1 < k) :
    ∃ c mtail, existing.filter (fun cr => cr.chunkNumber == k - 1) = c :: mtail ∧
      c ∈ existing ∧ c.chunkNumber = k - 1 := by
  set missing := (List.range' 1 numChunks).filter
      (fun n => !(existing.map (fun c => c.chunkNumber)).contains n) with hmiss
  obtain ⟨mtl, htail⟩ : ∃ mtl, missing = k :: mtl := by
    cases hm : missing with
    | nil => rw [hm] at hk; simp at hk
    | cons a t =>
      rw [hm] at hk
      simp only [List.head?_cons, Option.some.injEq] at hk
      exact ⟨t, by rw [hk]⟩
  have hkmem : k ∈ missing := by
    rw [htail]
    exact List.mem_cons_self _ _
  have hk' := List.mem_filter.mp hkmem
  rcases List.mem_range'_1.mp hk'.1 with ⟨hk1le, hkub⟩
  have hsortmiss : missing.Pairwise (· < ·) :=
    List.Pairwise.filter _ (List.pairwise_lt_range' 1 numChunks)
  have hmin : ∀ x ∈ mtl, k < x := by
    rw [htail] at hsortmiss
    exact (List.pairwise_cons.mp hsortmiss).1
  have hpredrange : k - 1 ∈ List.range' 1 numChunks := by
    apply List.mem_range'_1.mpr
    omega
  have hcontains : (existing.map (fun c => c.chunkNumber)).contains (k - 1) = true := by
    cases hcc : (existing.map (fun c => c.chunkNumber)).contains (k - 1) with
    | true => rfl
    | false =>
      exfalso
      have hpredmiss : k - 1 ∈ missing := by
        rw [hmiss]
        apply List.mem_filter.mpr
        exact ⟨hpredrange, by rw [hcc]; rfl⟩
      rw [htail] at hpredmiss
      rcases List.mem_cons.mp hpredmiss with h | h
      · omega
      · have := hmin _ h
        omega
  obtain ⟨c, hc, hcn⟩ := List.mem_map.mp (List.elem_iff.mp hcontains)
  have hcfilter : c ∈ existing.filter (fun cr => cr.chunkNumber == k - 1) :=
    List.mem_filter.mpr ⟨hc, by simp [hcn]⟩
  cases hflt : existing.filter (fun cr => cr.chunkNumber == k - 1) with
  | nil =>
    rw [hflt] at hcfilter
    simp at hcfilter
  | cons c' t' =>
    have hc'mem : c' ∈ existing.filter (fun cr => cr.chunkNumber == k - 1) := by
      rw [hflt]
      exact List.mem_cons_self _ _
    rcases List.mem_filter.mp hc'mem with ⟨hc'ex, hc'beq⟩
    exact ⟨c', t', rfl, hc'ex, by simpa using hc'beq⟩

/-- C10 (implicit): whenever resume would start at chunk `k > 1` (`k` the
minimum missing chunk number of the recomputed plan), a stored checkpoint
numbered `k − 1` necessarily exists, so the cumulative-summary seed is
always found and the "gap detected, starting without prior context"
fallback branch (line 609) is unreachable for any stored chunk set. -/
theorem gap_fallback_unreachable (existing : List ChunkRecord) (numChunks k : Nat)
    (hk : ((List.range' 1 numChunks).filter
      (fun n => !(existing.map (fun c => c.chunkNumber)).contains n)).head? = some k)
    (hk1 : 1 < k) :
    (∃ c ∈ existing, c.chunkNumber = k - 1) ∧
    existing.filter (fun cr => cr.chunkNumber == k - 1) ≠ [] := by
  obtain ⟨c, mtail, hf, hc, hcn⟩ := missing_head_pred_present existing numChunks k hk hk1
  refine ⟨⟨c, hc, hcn⟩, ?_⟩
  rw [hf]
  simp

/-- Witness for `gap_fallback_unreachable`: stored chunks {1, 3} with a
3-chunk plan; the first missing chunk is 2 and the record numbered 1 is
present. -/
theorem gap_fallback_unreachable_witness :
    (∃ c ∈ [(⟨1, 0, 10, "a", "x"⟩ : ChunkRecord), ⟨3, 20, 30, "b", "y"⟩],
      c.chunkNumber = 2 - 1) ∧
    [(⟨1, 0, 10, "a", "x"⟩ : ChunkRecord), ⟨3, 20, 30, "b", "y"⟩].filter
      (fun cr => cr.chunkNumber == 2 - 1) ≠ [] :=
  gap_fallback_unreachable [⟨1, 0, 10, "a", "x"⟩, ⟨3, 20, 30, "b", "y"⟩] 3 2
    (by decide) (by norm_num)

end Chronicle

namespace Chronicle

/-- When every model's usage is below 200 (the smallest daily limit in the
catalog), selection succeeds regardless of the complexity order. -/
lemma select_isSome_of_low_usage (usage : String → Nat) (c : String)
    (h : ∀ name, usage name < 200) :
    ∃ m, selectBestAvailableModel usage c = some m := by
  have h20 : modelAvailable usage FLASH_2_0 = true := by
    have := h FLASH_2_0.name
    simp only [modelAvailable, decide_eq_true_eq]
    unfold FLASH_2_0 at *
    simp only at *
    omega
  have hpv : modelAvailable usage FLASH_PREVIEW = true := by
    have := h FLASH_PREVIEW.name
    simp only [modelAvailable, decide_eq_true_eq]
    unfold FLASH_PREVIEW at *
    simp only at *
    omega
  unfold selectBestAvailableModel preferredOrder
  split
  · exact ⟨FLASH_2_0, List.find?_cons_of_pos _ h20⟩
  · exact ⟨FLASH_PREVIEW, List.find?_cons_of_pos _ hpv⟩

/-- An available model and a succeeding provider make the first attempt of
the retry loop succeed, with one provider call, no sleeps, and at most one
usage increment. -/
lemma chunkLoop_first_success (oracle : Nat → GenOutcome) (f : Nat → String)
    (c cumulative : String) (chunkNum : Nat) (usage : String → Nat)
    (callIdx : Nat) (sleeps : List ℚ)
    (hsucc : oracle callIdx = .success (f callIdx))
    (hm : ∃ m, selectBestAvailableModel usage c = some m) :
    ∃ usage', chunkLoop oracle c cumulative chunkNum maxRetries 0 usage callIdx sleeps =
      .success (f callIdx) usage' (callIdx + 1) sleeps ∧
      ∀ name, usage' name ≤ usage name + 1 := by
  obtain ⟨m, hm⟩ := hm
  refine ⟨bumpUsage usage m.name, ?_, ?_⟩
  · show chunkLoop oracle c cumulative chunkNum (4 + 1) 0 usage callIdx sleeps = _
    simp [chunkLoop, hm, hsucc]
  · intro name
    simp only [bumpUsage]
    split <;> omega

/-- The chunk-processing loop under an always-succeeding provider and
ample quota: it completes, makes one provider call per remaining chunk,
adds no sleeps, and commits exactly the records numbered
`chunkNum+1 .. chunkNum+remaining` after the ones already committed. -/
lemma processChunks_success (oracle : Nat → GenOutcome) (f : Nat → String)
    (hsucc : ∀ i, oracle i = .success (f i)) (c : String) (totalLines chunkSize : Nat) :
    ∀ remaining chunkNum cumulative usage callIdx recs sleeps,
      (∀ name, usage name + remaining ≤ 200) →
      ∃ r, processChunks oracle c totalLines chunkSize remaining chunkNum cumulative usage
          callIdx recs sleeps = .ok r ∧
        r.calls = callIdx + remaining ∧
        r.sleeps = sleeps ∧
        r.records.map (fun cr => cr.chunkNumber) =
          recs.map (fun cr => cr.chunkNumber) ++ List.range' (chunkNum + 1) remaining ∧
        r.wroteFinal = true := by
  intro remaining
  induction remaining with
  | zero =>
    intro chunkNum cumulative usage callIdx recs sleeps _
    refine ⟨⟨cumulative, recs, callIdx, sleeps, true⟩, ?_, ?_, ?_, ?_, ?_⟩
    · simp [processChunks]
    · simp
    · rfl
    · simp
    · rfl
  | succ rem ih =>
    intro chunkNum cumulative usage callIdx recs sleeps husage
    have hlow : ∀ name, usage name < 200 := by
      intro name
      have := husage name
      omega
    obtain ⟨usage', hloop, hbump⟩ :=
      chunkLoop_first_success oracle f c cumulative chunkNum usage callIdx sleeps
        (hsucc callIdx) (select_isSome_of_low_usage usage c hlow)
    have husage' : ∀ name, usage' name + rem ≤ 200 := by
      intro name
      have := hbump name
      have := husage name
      omega
    obtain ⟨r, hrun, hcalls, hsleeps, hrecs, hwrote⟩ :=
      ih (chunkNum + 1) (f callIdx) usage' (callIdx + 1)
        (recs ++ [⟨chunkNum + 1, chunkNum * chunkSize,
          min (chunkNum * chunkSize + chunkSize) totalLines, f callIdx, f callIdx⟩])
        sleeps husage'
    refine ⟨r, ?_, by omega, hsleeps, ?_, hwrote⟩
    · have hstep : processChunks oracle c totalLines chunkSize (rem + 1) chunkNum cumulative
          usage callIdx recs sleeps =
          processChunks oracle c totalLines chunkSize rem (chunkNum + 1) (f callIdx) usage'
            (callIdx + 1)
            (recs ++ [⟨chunkNum + 1, chunkNum * chunkSize,
              min (chunkNum * chunkSize + chunkSize) totalLines, f callIdx, f callIdx⟩])
            sleeps := by
        simp [processChunks, hloop]
      rw [hstep, hrun]
    · rw [hrecs]
      simp only [List.map_append, List.map_cons, List.map_nil, List.append_assoc]
      congr 1

end Chronicle

namespace Chronicle

/-- C2: for a partially summarized session (stored checkpoints non-empty,
`k` the minimum missing chunk number of the recomputed plan), the run
resumes at chunk `k`: the cumulative-summary seed is the stored cumulative
summary of chunk `k − 1` when `k > 1` and empty when `k = 1`; with an
always-succeeding provider and ample quota the run makes exactly
`num_chunks − (k − 1)` provider calls and commits exactly chunks
`k .. num_chunks` — chunks below `k` are neither recomputed nor the
subject of any provider call. -/
theorem gap_resume_run (oracle : Nat → GenOutcome) (f : Nat → String)
    (usage : String → Nat) (existing : List ChunkRecord)
    (totalLines chunkSizeHint k : Nat)
    (hsucc : ∀ i, oracle i = .success (f i))
    (hne : existing ≠ [])
    (hk : ((List.range' 1
        (numChunksOf totalLines (effectiveChunkSize totalLines chunkSizeHint))).filter
      (fun n => !(existing.map (fun c => c.chunkNumber)).contains n)).head? = some k)
    (husage : ∀ name, usage name +
      (numChunksOf totalLines (effectiveChunkSize totalLines chunkSizeHint) - (k - 1)) ≤ 200) :
    (k = 1 → resumePlan existing
      (numChunksOf totalLines (effectiveChunkSize totalLines chunkSizeHint)) = .inr (0, "")) ∧
    (1 < k → ∃ c ∈ existing, c.chunkNumber = k - 1 ∧
      resumePlan existing
        (numChunksOf totalLines (effectiveChunkSize totalLines chunkSizeHint)) =
        .inr (k - 1, c.cumulativeSummary)) ∧
    ∃ r, summarizeSessionChunked oracle usage existing totalLines chunkSizeHint = .ok r ∧
      r.calls = numChunksOf totalLines (effectiveChunkSize totalLines chunkSizeHint) - (k - 1) ∧
      r.sleeps = [] ∧
      r.records.map (fun cr => cr.chunkNumber) =
        List.range' k
          (numChunksOf totalLines (effectiveChunkSize totalLines chunkSizeHint) - (k - 1)) ∧
      r.wroteFinal = true := by
  set N := numChunksOf totalLines (effectiveChunkSize totalLines chunkSizeHint) with hNdef
  obtain ⟨mtl, htail⟩ : ∃ mtl, (List.range' 1 N).filter
      (fun n => !(existing.map (fun c => c.chunkNumber)).contains n) = k :: mtl := by
    cases hm : (List.range' 1 N).filter
        (fun n => !(existing.map (fun c => c.chunkNumber)).contains n) with
    | nil => rw [hm] at hk; simp at hk
    | cons a t =>
      rw [hm] at hk
      simp only [List.head?_cons, Option.some.injEq] at hk
      exact ⟨t, by rw [hk]⟩
  have hkmem : k ∈ (List.range' 1 N).filter
      (fun n => !(existing.map (fun c => c.chunkNumber)).contains n) := by
    rw [htail]
    exact List.mem_cons_self _ _
  rcases List.mem_range'_1.mp (List.mem_filter.mp hkmem).1 with ⟨hk1le, hkub⟩
  have hplan : resumePlan existing N = .inr (k - 1,
      if 1 < k then
        match existing.filter (fun cr => cr.chunkNumber == k - 1) with
        | c :: _ => c.cumulativeSummary
        | [] => ""
      else "") := by
    unfold resumePlan
    rw [if_neg (by simp [List.isEmpty_iff, hne]), htail]
  refine ⟨?_, ?_, ?_⟩
  · intro h1
    subst h1
    simpa using hplan
  · intro hklt
    obtain ⟨c, mtail2, hf2, hc, hcn⟩ := missing_head_pred_present existing N k hk hklt
    refine ⟨c, hc, hcn, ?_⟩
    rw [hplan, if_pos hklt, hf2]
  · obtain ⟨r, hrun, hcalls, hsleeps, hrecs, hwrote⟩ :=
      processChunks_success oracle f hsucc (complexityOf totalLines) totalLines
        (effectiveChunkSize totalLines chunkSizeHint) (N - (k - 1)) (k - 1)
        (if 1 < k then
          match existing.filter (fun cr => cr.chunkNumber == k - 1) with
          | c :: _ => c.cumulativeSummary
          | [] => ""
        else "") usage 0 [] [] husage
    refine ⟨r, ?_, by omega, hsleeps, ?_, hwrote⟩
    · unfold summarizeSessionChunked
      rw [← hNdef, hplan]
      exact hrun
    · rw [hrecs]
      simp only [List.map_nil, List.nil_append]
      congr 1
      omega

/-- Witness for `gap_resume_run`: a 9,000-line transcript with a
2,000-line hint plans 5 chunks; chunks 1–3 are stored, so the run resumes
at chunk 4 seeded with chunk 3's cumulative summary, makes 2 provider
calls, and commits chunks 4 and 5. -/
theorem gap_resume_run_witness :
    ((4 : Nat) = 1 → resumePlan
      [(⟨1, 0, 2000, "s1", "c1"⟩ : ChunkRecord), ⟨2, 2000, 4000, "s2", "c2"⟩,
        ⟨3, 4000, 6000, "s3", "c3"⟩]
      (numChunksOf 9000 (effectiveChunkSize 9000 2000)) = .inr (0, "")) ∧
    (1 < 4 → ∃ c ∈ [(⟨1, 0, 2000, "s1", "c1"⟩ : ChunkRecord), ⟨2, 2000, 4000, "s2", "c2"⟩,
        ⟨3, 4000, 6000, "s3", "c3"⟩], c.chunkNumber = 4 - 1 ∧
      resumePlan [(⟨1, 0, 2000, "s1", "c1"⟩ : ChunkRecord), ⟨2, 2000, 4000, "s2", "c2"⟩,
          ⟨3, 4000, 6000, "s3", "c3"⟩]
        (numChunksOf 9000 (effectiveChunkSize 9000 2000)) =
        .inr (4 - 1, c.cumulativeSummary)) ∧
    ∃ r, summarizeSessionChunked oracleA usage0
        [(⟨1, 0, 2000, "s1", "c1"⟩ : ChunkRecord), ⟨2, 2000, 4000, "s2", "c2"⟩,
          ⟨3, 4000, 6000, "s3", "c3"⟩] 9000 2000 = .ok r ∧
      r.calls = numChunksOf 9000 (effectiveChunkSize 9000 2000) - (4 - 1) ∧
      r.sleeps = [] ∧
      r.records.map (fun cr => cr.chunkNumber) =
        List.range' 4 (numChunksOf 9000 (effectiveChunkSize 9000 2000) - (4 - 1)) ∧
      r.wroteFinal = true :=
  gap_resume_run oracleA (fun i => "S" ++ toString i) usage0
    [⟨1, 0, 2000, "s1", "c1"⟩, ⟨2, 2000, 4000, "s2", "c2"⟩, ⟨3, 4000, 6000, "s3", "c3"⟩]
    9000 2000 4 (fun _ => rfl) (by decide) (by decide)
    (by intro name; simp only [usage0]; decide)

end Chronicle

namespace Chronicle

/-- C3: model selection never returns a model whose usage for today is at
or above its daily limit; it returns the first descriptor of the active
preference order with `daily_limit − usage > 0` (every earlier descriptor
has zero remaining quota); and when every catalog model is at its daily
limit, selection returns no model and a run started on a fresh session
raises the quota-exhausted error. -/
theorem quota_enforcement :
    (∀ (usage : String → Nat) (complexity : String) (m : ModelDescriptor),
      selectBestAvailableModel usage complexity = some m →
      usage m.name < m.dailyLimit ∧
      ∃ pre post, preferredOrder complexity = pre ++ m :: post ∧
        ∀ m' ∈ pre, m'.dailyLimit - usage m'.name = 0) ∧
    (∀ (usage : String → Nat) (complexity : String),
      (∀ m ∈ geminiCatalog, m.dailyLimit ≤ usage m.name) →
      selectBestAvailableModel usage complexity = none) ∧
    (∀ (oracle : Nat → GenOutcome) (usage : String → Nat) (totalLines chunkSizeHint : Nat),
      0 < totalLines → 0 < chunkSizeHint →
      (∀ m ∈ geminiCatalog, m.dailyLimit ≤ usage m.name) →
      summarizeSessionChunked oracle usage [] totalLines chunkSizeHint =
        .error (chunkFailMsg 0 quotaExhaustedMsg)) := by
  have hnone : ∀ (usage : String → Nat) (complexity : String),
      (∀ m ∈ geminiCatalog, m.dailyLimit ≤ usage m.name) →
      selectBestAvailableModel usage complexity = none := by
    intro usage complexity hexh
    apply List.find?_eq_none.mpr
    intro m hm
    have hcat := hexh m (mem_preferredOrder hm)
    simp only [modelAvailable, decide_eq_true_eq]
    omega
  refine ⟨?_, hnone, ?_⟩
  · intro usage complexity m h
    unfold selectBestAvailableModel at h
    obtain ⟨pre, post, heq, hpre, hpa⟩ := find?_first (modelAvailable usage) _ m h
    simp only [modelAvailable, decide_eq_true_eq] at hpa
    refine ⟨by omega, pre, post, heq, ?_⟩
    intro m' hm'
    have := hpre m' hm'
    simp only [modelAvailable, decide_eq_false_iff_not] at this
    omega
  · intro oracle usage totalLines chunkSizeHint htotal hhint hexh
    have hsel := hnone usage (complexityOf totalLines) hexh
    have hsize := effectiveChunkSize_pos totalLines chunkSizeHint hhint
    have hnum : 0 < numChunksOf totalLines (effectiveChunkSize totalLines chunkSizeHint) :=
      numChunksOf_pos _ _ htotal hsize
    obtain ⟨n', hn'⟩ : ∃ n',
        numChunksOf totalLines (effectiveChunkSize totalLines chunkSizeHint) = n' + 1 :=
      ⟨numChunksOf totalLines (effectiveChunkSize totalLines chunkSizeHint) - 1, by omega⟩
    have hloop := chunkLoop_quota_fatal oracle (complexityOf totalLines) 0 usage hsel 4 0 0 []
    unfold summarizeSessionChunked
    have hplan : resumePlan []
        (numChunksOf totalLines (effectiveChunkSize totalLines chunkSizeHint)) =
        .inr (0, "") := rfl
    rw [hplan, hn']
    simp only [Nat.sub_zero]
    simp [processChunks, show maxRetries = 4 + 1 from rfl, hloop]

end Chronicle

namespace Chronicle

/-- Witness for `quota_enforcement`: with fresh counters, small-session
selection picks `FLASH_PREVIEW` (first in order, under its 250/day limit);
with every model at 1000 requests today, selection returns no model and a
fresh 100-line run raises the quota-exhausted error for chunk 1. -/
theorem quota_enforcement_witness :
    (usage0 FLASH_PREVIEW.name < FLASH_PREVIEW.dailyLimit ∧
      ∃ pre post, preferredOrder "small" = pre ++ FLASH_PREVIEW :: post ∧
        ∀ m' ∈ pre, m'.dailyLimit - usage0 m'.name = 0) ∧
    selectBestAvailableModel usageAtLimit "small" = none ∧
    summarizeSessionChunked anyOracle usageAtLimit [] 100 3000 =
      .error (chunkFailMsg 0 quotaExhaustedMsg) :=
  ⟨quota_enforcement.1 usage0 "small" FLASH_PREVIEW (by decide),
   quota_enforcement.2.1 usageAtLimit "small" (by decide),
   quota_enforcement.2.2 anyOracle usageAtLimit 100 3000 (by norm_num) (by norm_num)
     (by decide)⟩

end Chronicle

namespace Chronicle

/-- A provider that always fails with a bare 429 and no retry-after hint. -/
def oracleFail : Nat → GenOutcome := fun _ => .failure "429" none

/-- Outcome classification of the retry loop (entered with at least one
attempt left): a `truncated` result always carries the cumulative summary
with the truncation marker appended and only arises when a cumulative
summary exists; a `fatal` result only arises when none exists. -/
lemma chunkLoop_exhaust_inv (oracle : Nat → GenOutcome) (c cumulative : String)
    (chunkNum : Nat) :
    ∀ fuel attempt usage callIdx sleeps, 0 < fuel →
      (match chunkLoop oracle c cumulative chunkNum fuel attempt usage callIdx sleeps with
        | .success _ _ _ _ => True
        | .truncated t _ _ => cumulative ≠ "" ∧ t = cumulative ++ truncMarker chunkNum
        | .fatal _ _ _ => cumulative = "") := by
  intro fuel
  induction fuel with
  | zero => intro _ _ _ _ h; exact absurd h (lt_irrefl 0)
  | succ f ih =>
    intro attempt usage callIdx sleeps _
    simp only [chunkLoop]
    cases hsel : selectBestAvailableModel usage c with
    | none =>
      simp only [hsel]
      by_cases hf : 0 < f
      · rw [if_pos hf]
        exact ih (attempt + 1) usage callIdx _ hf
      · rw [if_neg hf]
        by_cases hc : cumulative ≠ ""
        · rw [if_pos hc]
          exact ⟨hc, rfl⟩
        · rw [if_neg hc]
          push_neg at hc
          exact hc
    | some m =>
      simp only [hsel]
      cases horacle : oracle callIdx with
      | success text =>
        simp only [horacle]
      | failure errStr hint =>
        simp only [horacle]
        by_cases hf : 0 < f
        · rw [if_pos hf]
          exact ih (attempt + 1) usage (callIdx + 1) _ hf
        · rw [if_neg hf]
          by_cases hc : cumulative ≠ ""
          · rw [if_pos hc]
            exact ⟨hc, rfl⟩
          · rw [if_neg hc]
            push_neg at hc
            exact hc

/-- The records committed by the chunk loop only extend the records
committed before it: prior work is never discarded. -/
lemma processChunks_records_extend (oracle : Nat → GenOutcome) (c : String)
    (totalLines chunkSize : Nat) :
    ∀ remaining chunkNum cumulative usage callIdx recs sleeps r,
      processChunks oracle c totalLines chunkSize remaining chunkNum cumulative usage callIdx
        recs sleeps = .ok r →
      ∃ tl, r.records = recs ++ tl := by
  intro remaining
  induction remaining with
  | zero =>
    intro chunkNum cumulative usage callIdx recs sleeps r h
    simp only [processChunks] at h
    injection h with h
    exact ⟨[], by rw [← h]; simp⟩
  | succ rem ih =>
    intro chunkNum cumulative usage callIdx recs sleeps r h
    simp only [processChunks] at h
    cases hloop : chunkLoop oracle c cumulative chunkNum maxRetries 0 usage callIdx sleeps with
    | success t u ci sl =>
      rw [hloop] at h
      obtain ⟨tl, htl⟩ := ih (chunkNum + 1) t u ci
        (recs ++ [⟨chunkNum + 1, chunkNum * chunkSize,
          min (chunkNum * chunkSize + chunkSize) totalLines, t, t⟩]) sl r h
      refine ⟨⟨chunkNum + 1, chunkNum * chunkSize,
        min (chunkNum * chunkSize + chunkSize) totalLines, t, t⟩ :: tl, ?_⟩
      rw [htl]
      simp
    | truncated t ci sl =>
      rw [hloop] at h
      injection h with h
      exact ⟨[], by rw [← h]; simp⟩
    | fatal e ci sl =>
      rw [hloop] at h
      exact absurd h (by simp)

end Chronicle

namespace Chronicle

/-- With quota available and a provider failing every call from `callIdx`
on with the same error, the retry loop burns its attempts (sleeping the
classified backoff between them) and, when a cumulative summary exists,
returns it annotated with the truncation marker. -/
lemma chunkLoop_fail_truncated (oracle : Nat → GenOutcome) (c cumulative : String)
    (chunkNum : Nat) (errS : String) (hint : Option ℚ) (hcum : cumulative ≠ "") :
    ∀ fuel attempt usage callIdx sleeps,
      (∀ j, callIdx ≤ j → oracle j = .failure errS hint) →
      (∃ m, selectBestAvailableModel usage c = some m) →
      chunkLoop oracle c cumulative chunkNum (fuel + 1) attempt usage callIdx sleeps =
        .truncated (cumulative ++ truncMarker chunkNum) (callIdx + fuel + 1)
          (sleeps ++ (List.range fuel).map
            (fun k => retryDelay (isRateLimitError errS) hint (attempt + k))) := by
  intro fuel
  induction fuel with
  | zero =>
    intro attempt usage callIdx sleeps hfail hm
    obtain ⟨m, hm⟩ := hm
    simp [chunkLoop, hm, hfail callIdx (le_refl _), hcum]
  | succ f ih =>
    intro attempt usage callIdx sleeps hfail hm
    obtain ⟨m, hm⟩ := hm
    have hstep : chunkLoop oracle c cumulative chunkNum (f + 1 + 1) attempt usage callIdx
        sleeps = chunkLoop oracle c cumulative chunkNum (f + 1) (attempt + 1) usage
          (callIdx + 1)
          (sleeps ++ [retryDelay (isRateLimitError errS) hint attempt]) := by
      simp [chunkLoop, hm, hfail callIdx (le_refl _)]
    rw [hstep, ih (attempt + 1) usage (callIdx + 1) _
      (fun j hj => hfail j (by omega)) ⟨m, hm⟩]
    congr 1
    · omega
    · rw [List.range_succ_eq_map]
      simp only [List.map_cons, List.map_map, List.append_assoc, List.singleton_append,
        Nat.add_zero]
      congr 1
      congr 1
      apply List.map_congr_left
      intro k _
      simp only [Function.comp]
      congr 1
      omega

end Chronicle

namespace Chronicle

/-- C4 amended: when a chunk exhausts its 5-attempt retry cap, the failure
is fatal for that chunk only and prior work is never discarded: every
previously committed checkpoint remains (any successful result's records
extend the already-committed list, and the truncation path returns them
exactly); when a cumulative summary exists the loop's result is the
cumulative summary annotated with the truncation marker, returned normally
to the caller (no exception); the error is re-raised only when no
cumulative summary exists, and then carries no annotation. -/
theorem retry_exhaustion_amended (oracle : Nat → GenOutcome) (c : String)
    (totalLines chunkSize remaining chunkNum : Nat) (cumulative : String)
    (usage : String → Nat) (callIdx : Nat) (recs : List ChunkRecord) (sleeps : List ℚ) :
    (∀ r, processChunks oracle c totalLines chunkSize remaining chunkNum cumulative usage
        callIdx recs sleeps = .ok r → ∃ tl, r.records = recs ++ tl) ∧
    (∀ t cIdx s, 0 < remaining →
      chunkLoop oracle c cumulative chunkNum maxRetries 0 usage callIdx sleeps =
        .truncated t cIdx s →
      cumulative ≠ "" ∧ t = cumulative ++ truncMarker chunkNum ∧
      processChunks oracle c totalLines chunkSize remaining chunkNum cumulative usage callIdx
        recs sleeps = .ok ⟨t, recs, cIdx, s, false⟩) ∧
    (∀ e cIdx s, 0 < remaining →
      chunkLoop oracle c cumulative chunkNum maxRetries 0 usage callIdx sleeps =
        .fatal e cIdx s →
      cumulative = "" ∧
      processChunks oracle c totalLines chunkSize remaining chunkNum cumulative usage callIdx
        recs sleeps = .error e) := by
  refine ⟨fun r => processChunks_records_extend oracle c totalLines chunkSize remaining
    chunkNum cumulative usage callIdx recs sleeps r, ?_, ?_⟩
  · intro t cIdx s hrem hloop
    have hinv := chunkLoop_exhaust_inv oracle c cumulative chunkNum maxRetries 0 usage
      callIdx sleeps (by norm_num [maxRetries])
    rw [hloop] at hinv
    obtain ⟨hcum, ht⟩ := hinv
    refine ⟨hcum, ht, ?_⟩
    obtain ⟨rem', hrem'⟩ : ∃ rem', remaining = rem' + 1 := ⟨remaining - 1, by omega⟩
    rw [hrem']
    simp [processChunks, hloop]
  · intro e cIdx s hrem hloop
    have hinv := chunkLoop_exhaust_inv oracle c cumulative chunkNum maxRetries 0 usage
      callIdx sleeps (by norm_num [maxRetries])
    rw [hloop] at hinv
    refine ⟨hinv, ?_⟩
    obtain ⟨rem', hrem'⟩ : ∃ rem', remaining = rem' + 1 := ⟨remaining - 1, by omega⟩
    rw [hrem']
    simp [processChunks, hloop]

/-- Witness for `retry_exhaustion_amended`: processing the second chunk
(seeded with cumulative summary "A") against a provider that always fails
with a bare 429 exhausts the 5 attempts, sleeps 15/30/45/60 s, and returns
the annotated partial summary with no new records and no exception. -/
theorem retry_exhaustion_amended_witness :
    ("A" : String) ≠ "" ∧
    processChunks oracleFail "small" 4000 3000 1 1 "A" usage0 0 [] [] =
      .ok ⟨"A" ++ truncMarker 1, [], 5, [15, 30, 45, 60], false⟩ := by
  have hloop : chunkLoop oracleFail "small" "A" 1 maxRetries 0 usage0 0 [] =
      .truncated ("A" ++ truncMarker 1) 5 [15, 30, 45, 60] := by
    have h := chunkLoop_fail_truncated oracleFail "small" "A" 1 "429" none (by decide) 4 0
      usage0 0 [] (fun j hj => rfl) ⟨FLASH_PREVIEW, by decide⟩
    rw [show maxRetries = 4 + 1 from rfl, h]
    have hrl : isRateLimitError "429" = true := by decide
    rw [hrl]
    congr 1
    have hrange : List.range 4 = [0, 1, 2, 3] := by decide
    rw [hrange]
    simp only [List.map_cons, List.map_nil, List.nil_append, retryDelay, if_pos rfl]
    norm_num
  have h2 := (retry_exhaustion_amended oracleFail "small" 4000 3000 1 1 "A" usage0 0
    [] []).2.1 ("A" ++ truncMarker 1) 5 [15, 30, 45, 60] (by norm_num) hloop
  exact ⟨h2.1, h2.2.2⟩

end Chronicle
